import Mathlib

/-!
Verification of the "Rust Function Factory" template engine
(`src/function_factory.jsx`): a template registry, a preset registry, a
placeholder-substitution engine built on JavaScript `String.replace`, and
the interaction-controller state transitions of the React component.

The JavaScript code is shallowly embedded as executable Lean functions:

* `TEMPLATES` / `PRESETS` transcribe the two static registries.
* `jsReplaceAll` models `str.replace(new RegExp(pat, 'g'), rep)` for a
  pattern obtained by wrapping a plain identifier in literal braces (no
  regex metacharacters), including the ECMAScript `GetSubstitution`
  treatment of `$$`, `$&`, the dollar-backtick form and `$'` in the
  replacement string (the pattern has no capture groups, so `$n` and
  `$<` are literal text, exactly as in ECMAScript).
* `generateOutput` transcribes the per-field `forEach` replacement loop.
* `SessionState` and the `handle*`/`loadPreset`/`copyToClipboard`
  functions transcribe the component's `useState` state and handlers.
  React state setters enqueue their update as soon as they are called,
  so a handler that throws after calling a setter still leaves the
  update applied; the embeddings of the handlers reflect this by
  returning the state as mutated up to the point of the throw.

In the string literals below every literal brace character of the
JavaScript source is written with its hexadecimal escape, and
apostrophes are written `\x27`; the escapes denote exactly the same
characters as the source.
-/

set_option maxRecDepth 8000

/-- A template of the registry: display name, body with brace
placeholders, and the ordered list of declared field names
(`TEMPLATES` entries in the source). -/
structure Template where
  name : String
  template : String
  fields : List String
deriving DecidableEq, Repr

/-- The `pyfunction_simple` template (source lines 4-13). -/
def pyfunction_simple : Template where
  name := "Simple PyFunction"
  template := "/// \x7bdescription\x7d\n/// humanize.\x7bfn_name\x7d(\x7bexample_input\x7d) -> \"\x7bexample_output\x7d\"\n#[pyfunction]\nfn \x7bfn_name\x7d(value: \x7binput_type\x7d) -> \x7boutput_type\x7d \x7b\x7b\n    \x7bbody\x7d\n\x7d\x7d"
  fields := ["fn_name", "description", "example_input", "example_output", "input_type", "output_type", "body"]

/-- The `pyfunction_with_options` template (source lines 15-25). -/
def pyfunction_with_options : Template where
  name := "PyFunction with Options"
  template := "/// \x7bdescription\x7d\n/// humanize.\x7bfn_name\x7d(\x7bexample_input\x7d) -> \"\x7bexample_output\x7d\"\n#[pyfunction]\n#[pyo3(signature = (value, \x7boption_params\x7d))]\nfn \x7bfn_name\x7d(value: \x7binput_type\x7d, \x7brust_params\x7d) -> \x7boutput_type\x7d \x7b\x7b\n    \x7bbody\x7d\n\x7d\x7d"
  fields := ["fn_name", "description", "example_input", "example_output", "input_type", "output_type", "option_params", "rust_params", "body"]

/-- The `format_parser` template (source lines 27-42); the Lean name
avoids the source's exact key, which is kept in the registry below. -/
def formatParserTemplate : Template where
  name := "Format String Parser (reusable block)"
  template := "// Parse format string for precision\nlet precision = if fmt.contains(\x27.\x27) \x7b\x7b\n    fmt.chars()\n        .skip_while(|c| *c != \x27.\x27)\n        .skip(1)\n        .take_while(|c| c.is_ascii_digit())\n        .collect::<String>()\n        .parse::<usize>()\n        .unwrap_or(\x7bdefault_precision\x7d)\n\x7d\x7d else \x7b\x7b\n    \x7bdefault_precision\x7d\n\x7d\x7d;"
  fields := ["default_precision"]

/-- The `suffix_lookup` template (source lines 44-48). -/
def suffix_lookup : Template where
  name := "Suffix Lookup Table"
  template := "const \x7bconst_name\x7d: &[&str] = &[\x7bsuffixes\x7d];"
  fields := ["const_name", "suffixes"]

/-- The `threshold_match` template (source lines 50-57). -/
def threshold_match : Template where
  name := "Threshold Match Block"
  template := "let (divisor, suffix): (f64, &str) = \x7bthresholds\x7d\n    else \x7b\x7b\n        return \x7bfallback\x7d;\n    \x7d\x7d;"
  fields := ["thresholds", "fallback"]

/-- The `benchmark_case` template (source lines 59-72); the two
non-ASCII characters of the source file are the decoded byte sequences
`U+00E2 U+0153 U+201C` and `U+00E2 U+0153 U+2014`. -/
def benchmark_case : Template where
  name := "Benchmark Test Case"
  template := "# \x7bfn_name\x7d benchmark\npy = benchmark(\"\x7bfn_name\x7d\", lambda: humanize.\x7bfn_name\x7d(\x7btest_value\x7d))\nrs = benchmark(\"\x7bfn_name\x7d\", lambda: humanize_rs.\x7bfn_name\x7d(\x7btest_value\x7d))\nprint_comparison(py, rs)\n\npy_result = humanize.\x7bfn_name\x7d(\x7btest_value\x7d)\nrs_result = humanize_rs.\x7bfn_name\x7d(\x7btest_value\x7d)\nprint(f\"  Python output: \x7b\x7bpy_result\x7d\x7d\")\nprint(f\"  Rust output:   \x7b\x7brs_result\x7d\x7d\")\nprint(f\"  Match: \x7b\x7b\x27âœ“\x27 if py_result == rs_result else \x27âœ—\x27\x7d\x7d\")"
  fields := ["fn_name", "test_value"]

/-- The `module_registration` template (source lines 74-78). -/
def module_registration : Template where
  name := "Module Function Registration"
  template := "m.add_function(wrap_pyfunction!(\x7bfn_name\x7d, m)?)?;"
  fields := ["fn_name"]

/-- The template registry `TEMPLATES` (source lines 3-79), as an
association list in the source's key-insertion order. -/
def TEMPLATES : List (String × Template) :=
  [("pyfunction_simple", pyfunction_simple),
   ("pyfunction_with_options", pyfunction_with_options),
   ("format_parser", formatParserTemplate),
   ("suffix_lookup", suffix_lookup),
   ("threshold_match", threshold_match),
   ("benchmark_case", benchmark_case),
   ("module_registration", module_registration)]

/-- A preset: referenced template key plus a field-value mapping
(`PRESETS` entries in the source). -/
structure Preset where
  template : String
  values : List (String × String)
deriving DecidableEq, Repr

/-- The `intcomma` preset (source lines 82-102). -/
def preset_intcomma : Preset where
  template := "pyfunction_with_options"
  values :=
    [("fn_name", "intcomma"),
     ("description", "Format a number with comma separators"),
     ("example_input", "1000000"),
     ("example_output", "1,000,000"),
     ("input_type", "i64"),
     ("output_type", "String"),
     ("option_params", "ndigits=None"),
     ("rust_params", "ndigits: Option<i32>"),
     ("body", "match ndigits \x7b\n        Some(n) if n > 0 => \x7b\n            let factor = 10_f64.powi(n);\n            let rounded = (value as f64 / factor).round() * factor;\n            (rounded as i64).to_formatted_string(&Locale::en)\n        \x7d\n        _ => value.to_formatted_string(&Locale::en),\n    \x7d")]

/-- The `ordinal` preset (source lines 103-123). -/
def preset_ordinal : Preset where
  template := "pyfunction_simple"
  values :=
    [("fn_name", "ordinal"),
     ("description", "Convert a number to its ordinal form"),
     ("example_input", "3"),
     ("example_output", "3rd"),
     ("input_type", "i64"),
     ("output_type", "String"),
     ("body", "let suffix = match (value % 10, value % 100) \x7b\n        (1, 11) => \"th\",\n        (2, 12) => \"th\",\n        (3, 13) => \"th\",\n        (1, _) => \"st\",\n        (2, _) => \"nd\",\n        (3, _) => \"rd\",\n        _ => \"th\",\n    \x7d;\n    format!(\"\x7b\x7d\x7b\x7d\", value.to_formatted_string(&Locale::en), suffix)")]

/-- The `naturalsize` preset (source lines 124-137). -/
def preset_naturalsize : Preset where
  template := "pyfunction_with_options"
  values :=
    [("fn_name", "naturalsize"),
     ("description", "Convert a file size to human readable form"),
     ("example_input", "1048576"),
     ("example_output", "1.0 MB"),
     ("input_type", "i64"),
     ("output_type", "String"),
     ("option_params", "binary=false, gnu=false, format_str=None"),
     ("rust_params", "binary: bool, gnu: bool, format_str: Option<&str>"),
     ("body", "// See full implementation")]

/-- The preset registry `PRESETS` (source lines 81-138). -/
def PRESETS : List (String × Preset) :=
  [("intcomma", preset_intcomma),
   ("ordinal", preset_ordinal),
   ("naturalsize", preset_naturalsize)]

/-- JavaScript object property access `TEMPLATES[k]` (`undefined` for
an absent key becomes `none`). -/
def lookupTemplate (k : String) : Option Template :=
  (TEMPLATES.find? (fun p => p.1 == k)).map (·.2)

/-- JavaScript object property access `PRESETS[k]`. -/
def lookupPreset (k : String) : Option Preset :=
  (PRESETS.find? (fun p => p.1 == k)).map (·.2)

/-- JavaScript object property access `values[field]` on a field-value
mapping: the value of the first entry with the given key, `undefined`
(`none`) when absent. -/
def lookupVal : List (String × String) → String → Option String
  | [], _ => none
  | (k, v) :: rest, f => if k = f then some v else lookupVal rest f

/-- JavaScript `a || b` for a possibly-undefined string `a`: both
`undefined` and the empty string are falsy and select `b`. -/
def jsOr : Option String → String → String
  | none, d => d
  | some v, d => if v = "" then d else v

/-- The brace placeholder token of a field, the literal text matched by
the source's `new RegExp("\\" ++ brace ++ field ++ "\\" ++ brace, 'g')`
(for the identifier field names of this program the regex has no
metacharacters and matches exactly this literal token). -/
def fieldToken (f : String) : String := "\x7b" ++ f ++ "\x7d"

/-- The visible placeholder marker `<field>` used for unset fields. -/
def fieldMarker (f : String) : String := "<" ++ f ++ ">"

/-- ECMAScript `GetSubstitution` for a match of `matched` with the text
`before` preceding and `after` following the match, applied to the
replacement string: `$$` yields a dollar, `$&` the matched text, a
dollar followed by the backquote character (`Char.ofNat 96`) the text
before the match, `$\x27` the text after the match; everything else
(including `$n`, since the pattern has no capture groups) is literal. -/
def getSubstitution (matched before after : List Char) : List Char → List Char
  | [] => []
  | [c] => [c]
  | c :: d :: rest =>
    if c = '$' then
      if d = '$' then '$' :: getSubstitution matched before after rest
      else if d = '&' then matched ++ getSubstitution matched before after rest
      else if d = Char.ofNat 96 then before ++ getSubstitution matched before after rest
      else if d = '\x27' then after ++ getSubstitution matched before after rest
      else c :: getSubstitution matched before after (d :: rest)
    else c :: getSubstitution matched before after (d :: rest)

/-- Global regex replacement on a character list: scan left to right,
at each match of the literal pattern `p` emit the substitution of `rep`
(with the `$` contexts taken from the original subject string `orig`,
`i` being the current scan position in `orig`) and resume after the
match. The `fuel` argument only makes the recursion structural; every
step consumes at least one character, so any fuel of at least the
length of the scanned list computes the scan to completion. -/
def jsReplAux (p rep orig : List Char) : Nat → Nat → List Char → List Char
  | _, _, [] => []
  | 0, _, s => s
  | fuel + 1, i, c :: rest =>
    if p.isPrefixOf (c :: rest) ∧ p ≠ [] then
      getSubstitution p (orig.take i) (orig.drop (i + p.length)) rep
        ++ jsReplAux p rep orig fuel (i + p.length) (rest.drop (p.length - 1))
    else
      c :: jsReplAux p rep orig fuel (i + 1) rest

/-- JavaScript `s.replace(new RegExp(escape p, 'g'), rep)` for a
literal pattern `p` without regex metacharacters. -/
def jsReplaceAll (s p rep : String) : String :=
  ⟨jsReplAux p.data rep.data s.data s.data.length 0 s.data⟩

/-- The substitution engine `generateOutput` (source lines 154-161):
one global replacement pass per declared field, in declaration order,
over the evolving result string; an undefined or empty value renders as
the `<field>` marker. -/
def generateOutput (t : Template) (vs : List (String × String)) : String :=
  t.fields.foldl
    (fun result field =>
      jsReplaceAll result (fieldToken field) (jsOr (lookupVal vs field) (fieldMarker field)))
    t.template

/-- The component's `useState` state (source lines 141-144). -/
structure SessionState where
  selectedTemplate : String
  fieldValues : List (String × String)
  output : String
  copied : Bool
deriving DecidableEq, Repr

/-- The initial state of the component (source lines 141-144). -/
def initialState : SessionState :=
  { selectedTemplate := "pyfunction_simple", fieldValues := [], output := "", copied := false }

/-- JavaScript object spread `\x7b ...vs, [f]: v \x7d`: an existing key
keeps its position and gets the new value, a new key is appended. -/
def setKey : List (String × String) → String → String → List (String × String)
  | [], f, v => [(f, v)]
  | (f', v') :: rest, f, v =>
    if f' = f then (f, v) :: rest else (f', v') :: setKey rest f v

/-- The handler `handleFieldChange` (source lines 148-152): it spreads
the new value into the mapping and re-renders with the active template;
`none` models the `TypeError` crash when the selected template key is
not in the registry (the handler reads `template.fields` through the
render closure). There is no field-name validation of any kind. -/
def handleFieldChange (s : SessionState) (field value : String) : Option SessionState :=
  (lookupTemplate s.selectedTemplate).map fun t =>
    let newValues := setKey s.fieldValues field value
    { s with fieldValues := newValues, output := generateOutput t newValues }

/-- The JavaScript exception kinds a handler can raise; the only one
reachable here is the `TypeError` from reading a property of
`undefined`. -/
inductive JsError where
  | typeError
deriving DecidableEq, Repr

/-- The handler `handleTemplateChange` (source lines 183-187): the two
state setters run unconditionally, then `TEMPLATES[newTemplate].template`
is read — for an unknown key that read throws a `TypeError`, after the
selection and the field values have already been overwritten. -/
def handleTemplateChange (s : SessionState) (newTemplate : String) : SessionState × Option JsError :=
  let s1 := { s with selectedTemplate := newTemplate, fieldValues := [] }
  match lookupTemplate newTemplate with
  | some t => ({ s1 with output := t.template }, none)
  | none => (s1, some JsError.typeError)

/-- The handler `loadPreset` (source lines 163-175): look the preset
up, switch the selected template and replace the whole value mapping,
then recompute the output with the preset's values (the source inlines
the same replacement loop as `generateOutput`); `none` models the
`TypeError` crash on an unknown preset key or an unknown referenced
template key. -/
def loadPreset (s : SessionState) (presetName : String) : Option SessionState :=
  (lookupPreset presetName).bind fun preset =>
    (lookupTemplate preset.template).map fun t =>
      { s with
          selectedTemplate := preset.template
          fieldValues := preset.values
          output := generateOutput t preset.values }

/-- The clipboard acknowledgment state: the `copied` flag together with
the absolute fire times of the `setTimeout(() => setCopied(false), 2000)`
callbacks that are still pending. -/
structure CopyState where
  copied : Bool
  pending : List Nat
deriving DecidableEq, Repr

/-- The handler `copyToClipboard` (source lines 177-181) invoked at
absolute time `now`: set the flag and schedule one more reset callback
2000 ms later. No pending timer is ever cancelled — the source never
calls `clearTimeout` and keeps no timer handle. -/
def copyToClipboard (s : CopyState) (now : Nat) : CopyState :=
  { copied := true, pending := s.pending ++ [now + 2000] }

/-- Expiry of the timer scheduled for absolute time `t`: its callback
`setCopied(false)` runs and the timer leaves the pending set. -/
def fireTimer (s : CopyState) (t : Nat) : CopyState :=
  if s.pending.contains t then
    { copied := false, pending := s.pending.erase t }
  else s

/-- One event of the clipboard timeline. -/
inductive UiEvent where
  | copy (now : Nat)
  | fire (t : Nat)
deriving DecidableEq, Repr

/-- Process one clipboard timeline event. -/
def copyStep (s : CopyState) : UiEvent → CopyState
  | .copy now => copyToClipboard s now
  | .fire t => fireTimer s t

/-- Run a clipboard timeline from the initial `copied = false` state. -/
def runCopy (evs : List UiEvent) : CopyState :=
  evs.foldl copyStep ⟨false, []⟩

/-- Occurrence test: does `p` occur as a contiguous sublist of `s`?
(The empty pattern occurs everywhere.) -/
def occursB (p : List Char) : List Char → Bool
  | [] => p.isEmpty
  | c :: rest => p.isPrefixOf (c :: rest) || occursB p rest

/-- Substring occurrence on strings. -/
def containsStr (s pat : String) : Bool := occursB pat.data s.data

/-- Modelled from the spec: find the declared field whose brace token
starts at the present scan position, if any. -/
def findTokenAt (fields : List String) (s : List Char) : Option String :=
  fields.find? (fun f => (fieldToken f).data.isPrefixOf s)

/-- Modelled from the spec (sections 4.3 and 8): single simultaneous
left-to-right pass over the body; each occurrence of a declared field's
brace token is replaced by that field's supplied value if present and
non-empty, else by the `<field>` marker, the replacement text being
inserted literally (never rescanned, no `$` expansion); all other text
is passed through unchanged. -/
def specSubstAux (fields : List String) (vs : List (String × String)) : Nat → List Char → List Char
  | _, [] => []
  | 0, s => s
  | fuel + 1, c :: rest =>
    match findTokenAt fields (c :: rest) with
    | some f =>
      (jsOr (lookupVal vs f) (fieldMarker f)).data
        ++ specSubstAux fields vs fuel (rest.drop (f.length + 1))
    | none => c :: specSubstAux fields vs fuel rest

/-- Modelled from the spec: the spec's `render(template, values)` (the
fuel argument of the scan is large enough to never run out). -/
def specRender (t : Template) (vs : List (String × String)) : String :=
  ⟨specSubstAux t.fields vs t.template.data.length t.template.data⟩

/-- Identifier characters, the character class of the field names used
in placeholder tokens. -/
def identChar (c : Char) : Bool := c.isAlpha || c.isDigit || c = '_'

/-- Every substring of the shape open-brace, non-empty identifier,
close-brace — the natural reading of "placeholder of the form
brace-name-brace appearing in the body". -/
def naiveTokens : List Char → List String
  | [] => []
  | '\x7b' :: rest =>
    (match rest.span identChar with
     | (id, rem) =>
       match rem with
       | '\x7d' :: _ => if id.isEmpty then naiveTokens rest else String.mk id :: naiveTokens rest
       | _ => naiveTokens rest)
  | _ :: rest => naiveTokens rest

/-- Placeholder scan that treats a doubled brace as an escape (the
source templates use doubled braces for literal braces of the generated
Rust and Python f-string code): inside-escape text is not a
placeholder. -/
def escapedTokens : List Char → List String
  | [] => []
  | '\x7b' :: '\x7b' :: rest => escapedTokens rest
  | '\x7b' :: rest =>
    (match rest.span identChar with
     | (id, rem) =>
       match rem with
       | '\x7d' :: _ => if id.isEmpty then escapedTokens rest else String.mk id :: escapedTokens rest
       | _ => escapedTokens rest)
  | _ :: rest => escapedTokens rest

/-- Replacement scan without the `$` machinery: when the replacement
string contains no dollar character, `jsReplAux` coincides with this
context-independent scan (proved below). Fueled exactly like
`jsReplAux`. -/
def replF (p rep : List Char) : Nat → List Char → List Char
  | _, [] => []
  | 0, s => s
  | fuel + 1, c :: rest =>
    if p.isPrefixOf (c :: rest) ∧ p ≠ [] then
      rep ++ replF p rep fuel (rest.drop (p.length - 1))
    else
      c :: replF p rep fuel rest

/-- A fragment of a render in progress: either a concrete literal
fragment of the original template body, or the inserted value of a
field. -/
inductive Piece where
  | lit (l : List Char)
  | val (f : String)
deriving DecidableEq, Repr

/-- Flatten a piece list to a character list, reading each inserted
field value through the valuation `v`. -/
def flat (v : String → List Char) : List Piece → List Char
  | [] => []
  | .lit l :: ps => l ++ flat v ps
  | .val f :: ps => v f ++ flat v ps

/-- Prepend a character to the leading literal fragment. -/
def consLit (c : Char) : List Piece → List Piece
  | .lit l :: ps => .lit (c :: l) :: ps
  | ps => .lit [c] :: ps

/-- One replacement pass inside a literal fragment, mirroring `replF`:
each match of `p` becomes an inserted value of field `f`, the rest
stays literal. -/
def litRepl (p : List Char) (f : String) : Nat → List Char → List Piece
  | _, [] => []
  | 0, s => [.lit s]
  | fuel + 1, c :: rest =>
    if p.isPrefixOf (c :: rest) ∧ p ≠ [] then
      .val f :: litRepl p f fuel (rest.drop (p.length - 1))
    else
      consLit c (litRepl p f fuel rest)

/-- One engine pass at the piece level: replacement only rewrites
literal fragments; previously inserted values are opaque. -/
def passPieces (p : List Char) (f : String) : List Piece → List Piece
  | [] => []
  | .lit l :: ps => litRepl p f l.length l ++ passPieces p f ps
  | .val g :: ps => .val g :: passPieces p f ps

/-- The whole render of a template at the piece level: one pass per
declared field in declaration order, starting from the body as a single
literal fragment. This is independent of the supplied values. -/
def renderPieces (t : Template) : List Piece :=
  t.fields.foldl (fun ps f => passPieces (fieldToken f).data f ps) [.lit t.template.data]

/-- No dangling partial match: no non-empty suffix of `l` is a proper
prefix of `p`. When this holds, a match of `p` that starts inside `l`
ends inside `l`, whatever text follows. -/
def noDangling (p : List Char) : List Char → Bool
  | [] => true
  | c :: rest =>
    (!(List.isPrefixOf (c :: rest) p) || decide (p.length ≤ (c :: rest).length))
      && noDangling p rest

/-- Every literal fragment of the piece list is free of dangling
partial matches of `p`. -/
def passOk (p : List Char) : List Piece → Bool
  | [] => true
  | .lit l :: ps => noDangling p l && passOk p ps
  | .val _ :: ps => passOk p ps

/-- The decidable certificate that each successive pass only ever
matches inside single literal fragments. -/
def passesOk (fields : List String) (ps : List Piece) : Bool :=
  match fields with
  | [] => true
  | f :: fs =>
    passOk (fieldToken f).data ps
      && passesOk fs (passPieces (fieldToken f).data f ps)

/-- The decidable certificate that the marker `m` neither occurs inside
a literal fragment nor can start at a dangling partial match of one. -/
def markerFree (m : List Char) : List Piece → Bool
  | [] => true
  | .lit l :: ps => !(occursB m l) && noDangling m l && markerFree m ps
  | .val _ :: ps => markerFree m ps

/-- A supplied value is safe when it avoids the brace, angle-bracket
and dollar characters that the engine or the marker shape could give
meaning to. -/
def safeChar (c : Char) : Bool :=
  !(c = '\x7b' || c = '\x7d' || c = '<' || c = '>' || c = '$')

/-- All characters of the string are safe. -/
def safeVal (s : String) : Bool := s.data.all safeChar

/-- The mapping supplies a non-empty safe value for the field. -/
def goodVal (vs : List (String × String)) (f : String) : Bool :=
  match lookupVal vs f with
  | some val => (val != "") && safeVal val
  | none => false

/-! ## Helper lemmas -/

theorem lookupVal_setKey_ne (vs : List (String × String)) (k v f : String) (h : k ≠ f) :
    lookupVal (setKey vs k v) f = lookupVal vs f := by
  induction vs with
  | nil => simp [setKey, lookupVal, h]
  | cons kv rest ih =>
    obtain ⟨a, b⟩ := kv
    by_cases hk : a = k
    · subst hk
      simp [setKey, lookupVal, h]
    · simp [setKey, hk, lookupVal, ih]

theorem renderFold_congr (fields : List String) (v1 v2 : List (String × String))
    (h : ∀ f ∈ fields, lookupVal v1 f = lookupVal v2 f) (init : String) :
    fields.foldl (fun r f => jsReplaceAll r (fieldToken f) (jsOr (lookupVal v1 f) (fieldMarker f))) init
      = fields.foldl (fun r f => jsReplaceAll r (fieldToken f) (jsOr (lookupVal v2 f) (fieldMarker f))) init := by
  induction fields generalizing init with
  | nil => rfl
  | cons f fs ih =>
    simp only [List.foldl_cons]
    rw [h f (List.mem_cons_self f fs)]
    exact ih (fun g hg => h g (List.mem_cons_of_mem f hg)) _

theorem generateOutput_congr (t : Template) (v1 v2 : List (String × String))
    (h : ∀ f ∈ t.fields, lookupVal v1 f = lookupVal v2 f) :
    generateOutput t v1 = generateOutput t v2 :=
  renderFold_congr t.fields v1 v2 h t.template

/-! ## Claim theorems -/

/-- C7: for every template of the registry, rendering under the empty
value mapping equals the template body in which every occurrence of a
declared field's brace placeholder is replaced by the angle-bracket
marker of that field and all other text is unchanged (the spec-side
single simultaneous literal pass `specRender`). -/
theorem c7_render_empty_is_markers :
    ∀ kt ∈ TEMPLATES, generateOutput kt.2 [] = specRender kt.2 [] := by decide

theorem c7_render_empty_is_markers_witness :
    generateOutput pyfunction_simple [] = specRender pyfunction_simple [] :=
  c7_render_empty_is_markers ("pyfunction_simple", pyfunction_simple) (by decide)

/-- C2: for every preset of the registry and any prior session state, a
successful `loadPreset` switches the selected template to the preset's
template key, replaces the whole field-value mapping by the preset's
values, and renders so that every declared field shows its preset value
when present and non-empty and the `<field>` marker otherwise — i.e.
the output equals the spec-side literal render of the preset's template
under the preset's values. -/
theorem c2_loadPreset_atomic :
    ∀ kp ∈ PRESETS, ∀ s : SessionState, ∃ t,
      lookupTemplate kp.2.template = some t ∧
      loadPreset s kp.1 = some
        { s with
            selectedTemplate := kp.2.template
            fieldValues := kp.2.values
            output := specRender t kp.2.values } := by
  intro kp hkp s
  fin_cases hkp
  · refine ⟨pyfunction_with_options, rfl, ?_⟩
    have h : generateOutput pyfunction_with_options preset_intcomma.values
        = specRender pyfunction_with_options preset_intcomma.values := by decide
    rw [show loadPreset s "intcomma" = some
        { s with
            selectedTemplate := "pyfunction_with_options"
            fieldValues := preset_intcomma.values
            output := generateOutput pyfunction_with_options preset_intcomma.values } from rfl, h]
    rfl
  · refine ⟨pyfunction_simple, rfl, ?_⟩
    have h : generateOutput pyfunction_simple preset_ordinal.values
        = specRender pyfunction_simple preset_ordinal.values := by decide
    rw [show loadPreset s "ordinal" = some
        { s with
            selectedTemplate := "pyfunction_simple"
            fieldValues := preset_ordinal.values
            output := generateOutput pyfunction_simple preset_ordinal.values } from rfl, h]
    rfl
  · refine ⟨pyfunction_with_options, rfl, ?_⟩
    have h : generateOutput pyfunction_with_options preset_naturalsize.values
        = specRender pyfunction_with_options preset_naturalsize.values := by decide
    rw [show loadPreset s "naturalsize" = some
        { s with
            selectedTemplate := "pyfunction_with_options"
            fieldValues := preset_naturalsize.values
            output := generateOutput pyfunction_with_options preset_naturalsize.values } from rfl, h]
    rfl

theorem c2_loadPreset_atomic_witness :
    ∃ t, lookupTemplate preset_ordinal.template = some t ∧
      loadPreset initialState "ordinal" = some
        { initialState with
            selectedTemplate := preset_ordinal.template
            fieldValues := preset_ordinal.values
            output := specRender t preset_ordinal.values } :=
  c2_loadPreset_atomic ("ordinal", preset_ordinal) (by decide) initialState

/-- C10: substitution does not always insert the supplied value
verbatim: on the `module_registration` template the value consisting of
the two characters dollar-ampersand expands to the matched placeholder
token, so the engine output differs from the literal replacement
(`specRender`) of the same value. -/
theorem c10_dollar_patterns_expand :
    generateOutput module_registration [("fn_name", "$&")]
        = "m.add_function(wrap_pyfunction!(\x7bfn_name\x7d, m)?)?;" ∧
    specRender module_registration [("fn_name", "$&")]
        = "m.add_function(wrap_pyfunction!($&, m)?)?;" ∧
    generateOutput module_registration [("fn_name", "$&")]
        ≠ specRender module_registration [("fn_name", "$&")] := by decide

/-- C1 counterexample: on `pyfunction_simple`, supplying the value
consisting of the seven characters of the body field's brace
placeholder for the `fn_name` field does NOT insert that text
literally: no brace-body token survives in the output, and the marker
of the `body` field appears where the value was inserted — the value
text was itself treated as a placeholder by the later `body` pass
(while the spec-side literal render `specRender` does keep it). -/
theorem c1_counterexample :
    "fn_name" ∈ pyfunction_simple.fields ∧
    "body" ∈ pyfunction_simple.fields ∧
    containsStr (generateOutput pyfunction_simple [("fn_name", "\x7bbody\x7d")])
        "\x7bbody\x7d" = false ∧
    containsStr (generateOutput pyfunction_simple [("fn_name", "\x7bbody\x7d")])
        "fn <body>(value:" = true ∧
    containsStr (specRender pyfunction_simple [("fn_name", "\x7bbody\x7d")])
        "fn \x7bbody\x7d(value:" = true := by decide

/-- C1 amended: the engine does one replacement pass per field in
declaration order over the evolving string, so inserted value text is
rescanned by the passes of strictly later fields but not by its own or
earlier passes: on `pyfunction_simple` a value containing the `body`
placeholder supplied for `fn_name` is substituted by the later `body`
pass (by the `body` value when supplied, by the `<body>` marker
otherwise), while a value containing the `fn_name` placeholder supplied
for the last field `body` is inserted literally. -/
theorem c1_amended_later_fields_substituted :
    containsStr (generateOutput pyfunction_simple
        [("fn_name", "\x7bbody\x7d"), ("body", "do_work()")]) "fn do_work()(value:" = true ∧
    containsStr (generateOutput pyfunction_simple
        [("fn_name", "\x7bbody\x7d")]) "fn <body>(value:" = true ∧
    containsStr (generateOutput pyfunction_simple
        [("fn_name", "ordinal"), ("body", "\x7bfn_name\x7d")]) "\x7bfn_name\x7d" = true ∧
    containsStr (generateOutput pyfunction_simple
        [("fn_name", "ordinal"), ("body", "\x7bfn_name\x7d")]) "fn ordinal(value:" = true := by decide

/-- C9 counterexample: the `benchmark_case` template's body contains
the brace placeholder form of the name `py_result` (inside the doubled
braces of a generated f-string), and that name has no entry in the
declared field list. -/
theorem c9_counterexample :
    ("benchmark_case", benchmark_case) ∈ TEMPLATES ∧
    "py_result" ∈ naiveTokens benchmark_case.template.data ∧
    benchmark_case.fields.count "py_result" = 0 := by decide

/-- C9 amended: reading doubled braces as escapes (the templates use
them for literal braces of generated code), every remaining brace
placeholder in every registry template's body corresponds to exactly
one entry of that template's declared field list. -/
theorem c9_amended_tokens_declared :
    ∀ kt ∈ TEMPLATES, ∀ name ∈ escapedTokens kt.2.template.data,
      kt.2.fields.count name = 1 := by decide

theorem c9_amended_tokens_declared_witness :
    benchmark_case.fields.count "test_value" = 1 :=
  c9_amended_tokens_declared ("benchmark_case", benchmark_case) (by decide)
    "test_value" (by decide)

/-- C8 counterexample: a complete, all-non-empty value mapping for
`suffix_lookup` whose `const_name` value happens to contain the text of
the `suffixes` marker produces an output that does contain the literal
marker pattern of the declared field `suffixes`. -/
theorem c8_counterexample :
    ("suffix_lookup", suffix_lookup) ∈ TEMPLATES ∧
    suffix_lookup.fields = ["const_name", "suffixes"] ∧
    ("<suffixes>" ≠ "") ∧ ("TH" ≠ "") ∧
    containsStr (generateOutput suffix_lookup
        [("const_name", "<suffixes>"), ("suffixes", "TH")])
      (fieldMarker "suffixes") = true := by decide

/-- C3 counterexample: selecting the unknown template key
`does_not_exist` from the initial state does fail (the registry lookup
is `undefined`, so reading its `template` property throws), but the
session state is NOT left unchanged: the selected-template key and the
(already empty here, but unconditionally cleared) field values are
overwritten before the throw. -/
theorem c3_counterexample :
    lookupTemplate "does_not_exist" = none ∧
    (handleTemplateChange initialState "does_not_exist").2 = some JsError.typeError ∧
    (handleTemplateChange initialState "does_not_exist").1.selectedTemplate
        = "does_not_exist" ∧
    (handleTemplateChange initialState "does_not_exist").1 ≠ initialState := by decide

/-- C3 amended: selecting a template key absent from the registry fails
with a `TypeError` (reading `.template` of `undefined`), not a checked
`NotFoundError`, and the failure is not transactional: the
selected-template key is overwritten with the unknown key and the field
values are cleared before the throw; only the rendered output (and the
copied flag) keep their prior values. -/
theorem c3_amended_partial_effect (s : SessionState) (k : String)
    (h : lookupTemplate k = none) :
    handleTemplateChange s k =
      ({ s with selectedTemplate := k, fieldValues := [] }, some JsError.typeError) := by
  simp [handleTemplateChange, h]

theorem c3_amended_partial_effect_witness :
    handleTemplateChange initialState "does_not_exist" =
      ({ initialState with selectedTemplate := "does_not_exist", fieldValues := [] },
        some JsError.typeError) :=
  c3_amended_partial_effect initialState "does_not_exist" (by decide)

/-- C4 counterexample: editing the field `const_name`, which the active
`pyfunction_simple` template does not declare, raises no error at all
(the handler succeeds), stores the value in the mapping, and recomputes
the rendered output — which here differs from the prior output (the
initial output is the empty string). -/
theorem c4_counterexample :
    "const_name" ∉ pyfunction_simple.fields ∧
    initialState.selectedTemplate = "pyfunction_simple" ∧
    (handleFieldChange initialState "const_name" "S").isSome = true ∧
    (handleFieldChange initialState "const_name" "S").map SessionState.fieldValues
        = some [("const_name", "S")] ∧
    (handleFieldChange initialState "const_name" "S").map SessionState.output
        ≠ some initialState.output := by decide

/-- C4 amended: `editField` performs no field-name validation and never
fails while the selected template is valid: for any name, declared or
not, it stores the value in the mapping and recomputes the output from
the active template and the new mapping; a name not declared by the
active template never affects the recomputed render (the render reads
only declared fields), though the recomputed output can differ from the
previously stored output string (e.g. from the initial empty output). -/
theorem c4_amended_no_validation (s : SessionState) (field value : String) (t : Template)
    (ht : lookupTemplate s.selectedTemplate = some t) :
    handleFieldChange s field value = some
      { s with
          fieldValues := setKey s.fieldValues field value
          output := generateOutput t (setKey s.fieldValues field value) } ∧
    (field ∉ t.fields →
      generateOutput t (setKey s.fieldValues field value) = generateOutput t s.fieldValues) := by
  constructor
  · simp [handleFieldChange, ht]
  · intro hf
    apply generateOutput_congr
    intro g hg
    exact lookupVal_setKey_ne s.fieldValues field value g (fun e => hf (by rw [e]; exact hg))

theorem c4_amended_no_validation_witness :
    (handleFieldChange initialState "const_name" "S" = some
      { initialState with
          fieldValues := setKey initialState.fieldValues "const_name" "S"
          output := generateOutput pyfunction_simple
            (setKey initialState.fieldValues "const_name" "S") }) ∧
    ("const_name" ∉ pyfunction_simple.fields →
      generateOutput pyfunction_simple (setKey initialState.fieldValues "const_name" "S")
        = generateOutput pyfunction_simple initialState.fieldValues) :=
  c4_amended_no_validation initialState "const_name" "S" pyfunction_simple (by decide)

/-- C5 counterexample: selecting the registry template `suffix_lookup`
sets the output to the raw template body, in which the placeholders are
still the brace tokens — the `<field>` markers do not appear, and the
output differs from the render of the new template under the empty
mapping. -/
theorem c5_counterexample :
    ("suffix_lookup", suffix_lookup) ∈ TEMPLATES ∧
    (handleTemplateChange initialState "suffix_lookup").1.output
        = suffix_lookup.template ∧
    containsStr (handleTemplateChange initialState "suffix_lookup").1.output
        (fieldToken "const_name") = true ∧
    containsStr (handleTemplateChange initialState "suffix_lookup").1.output
        (fieldMarker "const_name") = false ∧
    (handleTemplateChange initialState "suffix_lookup").1.output
        ≠ specRender suffix_lookup [] := by decide

/-- C5 amended: successful template selection resets every field value
to empty and sets the rendered output to the raw template body with the
placeholders left in their brace form (not replaced by the
angle-bracket markers the claim describes). -/
theorem c5_amended_raw_body (kt : String × Template) (hkt : kt ∈ TEMPLATES)
    (s : SessionState) :
    handleTemplateChange s kt.1 =
      ({ s with selectedTemplate := kt.1, fieldValues := [], output := kt.2.template },
        none) := by
  fin_cases hkt <;> rfl

theorem c5_amended_raw_body_witness :
    handleTemplateChange initialState "suffix_lookup" =
      ({ initialState with
          selectedTemplate := "suffix_lookup"
          fieldValues := []
          output := suffix_lookup.template }, none) :=
  c5_amended_raw_body ("suffix_lookup", suffix_lookup) (by decide) initialState

/-- C6 counterexample: with a copy at time 0 and a second copy at time
1000 while the first reset timer is still pending, both timers remain
scheduled (nothing is cancelled), and when the first timer fires at
time 2000 — only 1000 ms after the most recent copy, before its
2000 ms window ends at 3000 — the acknowledgment flag is cleared. -/
theorem c6_counterexample :
    (runCopy [.copy 0, .copy 1000]).pending = [2000, 3000] ∧
    (runCopy [.copy 0, .copy 1000]).copied = true ∧
    (runCopy [.copy 0, .copy 1000, .fire 2000]).copied = false ∧
    (1000 + 2000 : Nat) = 3000 ∧ (2000 : Nat) < 3000 := by decide

/-- C6 amended: a copy while an earlier reset timer is pending does not
cancel it: both timers stay scheduled, and the earlier timer still
fires 2000 ms after the earlier copy, clearing the flag strictly before
the 2000 ms window of the most recent copy has elapsed (the earlier
timer wins, not the latest copy). -/
theorem c6_amended_no_cancellation (t1 t2 : Nat) (h : t1 < t2 ∧ t2 < t1 + 2000) :
    (runCopy [.copy t1, .copy t2]).pending = [t1 + 2000, t2 + 2000] ∧
    (runCopy [.copy t1, .copy t2]).copied = true ∧
    (runCopy [.copy t1, .copy t2, .fire (t1 + 2000)]).copied = false ∧
    t1 + 2000 < t2 + 2000 := by
  refine ⟨rfl, rfl, ?_, by omega⟩
  have hc : ([t1 + 2000, t2 + 2000] : List Nat).contains (t1 + 2000) = true := by simp
  simp [runCopy, copyStep, copyToClipboard, fireTimer, hc]

theorem c6_amended_no_cancellation_witness :
    (runCopy [.copy 0, .copy 1000]).pending = [0 + 2000, 1000 + 2000] ∧
    (runCopy [.copy 0, .copy 1000]).copied = true ∧
    (runCopy [.copy 0, .copy 1000, .fire (0 + 2000)]).copied = false ∧
    0 + 2000 < 1000 + 2000 :=
  c6_amended_no_cancellation 0 1000 (by decide)

/-! ## Replacement-scan framework lemmas -/

theorem replF_nil (p rep : List Char) (fuel : Nat) : replF p rep fuel [] = [] := by
  cases fuel <;> rfl

theorem replF_fuel_congr (p rep : List Char) :
    ∀ fuel1 fuel2 (s : List Char), s.length ≤ fuel1 → s.length ≤ fuel2 →
      replF p rep fuel1 s = replF p rep fuel2 s := by
  intro fuel1
  induction fuel1 with
  | zero =>
    intro fuel2 s hs1 _
    have : s = [] := List.eq_nil_of_length_eq_zero (Nat.le_zero.mp hs1)
    subst this
    rw [replF_nil, replF_nil]
  | succ fuel ih =>
    intro fuel2 s hs1 hs2
    cases s with
    | nil => rw [replF_nil, replF_nil]
    | cons c rest =>
      cases fuel2 with
      | zero => simp at hs2
      | succ fuel2' =>
        have h1 : rest.length ≤ fuel := by simp at hs1; omega
        have h2 : rest.length ≤ fuel2' := by simp at hs2; omega
        have hd : (rest.drop (p.length - 1)).length ≤ rest.length := by
          simp [List.length_drop]
        simp only [replF]
        split
        · rw [ih fuel2' (rest.drop (p.length - 1)) (le_trans hd h1) (le_trans hd h2)]
        · rw [ih fuel2' rest h1 h2]

theorem getSubstitution_no_dollar :
    ∀ (rep : List Char), '$' ∉ rep → ∀ m b a, getSubstitution m b a rep = rep
  | [], _, _, _, _ => rfl
  | [_], _, _, _, _ => rfl
  | c :: d :: rest, h, m, b, a => by
    have hc : ¬(c = '$') := fun e => h (by simp [e])
    simp only [getSubstitution, if_neg hc]
    exact congrArg (c :: ·)
      (getSubstitution_no_dollar (d :: rest) (fun hm => h (List.mem_cons_of_mem _ hm)) m b a)

theorem jsReplAux_no_dollar (p rep orig : List Char) (h : '$' ∉ rep) :
    ∀ fuel i s, jsReplAux p rep orig fuel i s = replF p rep fuel s := by
  intro fuel
  induction fuel with
  | zero => intro i s; cases s <;> rfl
  | succ fuel ih =>
    intro i s
    cases s with
    | nil => rfl
    | cons c rest =>
      simp only [jsReplAux, replF]
      split
      · rw [getSubstitution_no_dollar rep h, ih]
      · rw [ih]

theorem flat_consLit (v : String → List Char) (c : Char) (ps : List Piece) :
    flat v (consLit c ps) = c :: flat v ps := by
  cases ps with
  | nil => simp [consLit, flat]
  | cons P ps' => cases P <;> simp [consLit, flat]

theorem flat_litRepl (p : List Char) (f : String) (v : String → List Char) :
    ∀ fuel l, flat v (litRepl p f fuel l) = replF p (v f) fuel l := by
  intro fuel
  induction fuel with
  | zero => intro l; cases l <;> simp [litRepl, replF, flat]
  | succ fuel ih =>
    intro l
    cases l with
    | nil => rfl
    | cons c rest =>
      simp only [litRepl, replF]
      split
      · simp only [flat, ih]
      · rw [flat_consLit, ih]

theorem flat_append (v : String → List Char) (ps qs : List Piece) :
    flat v (ps ++ qs) = flat v ps ++ flat v qs := by
  induction ps with
  | nil => simp [flat]
  | cons P ps' ih => cases P <;> simp [flat, ih]

theorem noDangling_tail {p : List Char} {c : Char} {rest : List Char}
    (h : noDangling p (c :: rest) = true) : noDangling p rest = true := by
  simp only [noDangling, Bool.and_eq_true] at h
  exact h.2

theorem noDangling_whole {p : List Char} {c : Char} {rest : List Char}
    (h : noDangling p (c :: rest) = true) (hpre : (c :: rest) <+: p) :
    p.length ≤ (c :: rest).length := by
  simp only [noDangling, Bool.and_eq_true, Bool.or_eq_true, Bool.not_eq_true',
    decide_eq_true_eq] at h
  rcases h.1 with h1 | h1
  · exact absurd ( List.isPrefixOf_iff_prefix.mpr hpre) (by simp [h1])
  · exact h1

theorem noDangling_drop {p : List Char} :
    ∀ (l : List Char) (k : Nat), noDangling p l = true → noDangling p (l.drop k) = true := by
  intro l
  induction l with
  | nil => intro k h; simpa using h
  | cons c rest ih =>
    intro k h
    cases k with
    | zero => simpa using h
    | succ k' => exact ih k' (noDangling_tail h)

theorem prefix_split {p : List Char} {c : Char} {l b : List Char}
    (hnd : noDangling p (c :: l) = true)
    (hpre : p <+: (c :: l) ++ b) : p <+: (c :: l) := by
  rcases le_or_lt p.length (c :: l).length with hle | hlt
  · exact List.prefix_of_prefix_length_le hpre (List.prefix_append _ _) hle
  · have h2 : (c :: l) <+: p :=
      List.prefix_of_prefix_length_le (List.prefix_append _ _) hpre (Nat.le_of_lt hlt)
    exact absurd (noDangling_whole hnd h2) (Nat.not_le.mpr hlt)

theorem replF_append (p rep : List Char) (hp : p ≠ []) :
    ∀ fuel (l b : List Char), noDangling p l = true → l.length + b.length ≤ fuel →
      replF p rep fuel (l ++ b) = replF p rep l.length l ++ replF p rep b.length b := by
  intro fuel
  induction fuel with
  | zero =>
    intro l b _ hlen
    have hl : l = [] := List.eq_nil_of_length_eq_zero (by omega)
    have hb : b = [] := List.eq_nil_of_length_eq_zero (by omega)
    subst hl; subst hb
    simp [replF_nil]
  | succ fuel ih =>
    intro l b hnd hlen
    cases l with
    | nil =>
      simp only [List.nil_append, List.length_nil]
      rw [replF_nil]
      rw [List.nil_append]
      exact replF_fuel_congr p rep (fuel + 1) b.length b (by simpa using hlen) le_rfl
    | cons c l' =>
      have hstep : (c :: l') ++ b = c :: (l' ++ b) := rfl
      by_cases hpre : p <+: (c :: l')
      · have hpre' : p <+: c :: (l' ++ b) := by
          rw [← hstep]; exact hpre.trans (List.prefix_append _ _)
        have hplen : p.length ≤ l'.length + 1 := by simpa using hpre.length_le
        have hp1 : 1 ≤ p.length := by
          cases p with
          | nil => exact absurd rfl hp
          | cons _ _ => simp
        have hL : replF p rep (fuel + 1) ((c :: l') ++ b)
            = rep ++ replF p rep fuel ((l' ++ b).drop (p.length - 1)) := by
          rw [hstep]
          simp only [replF]
          rw [if_pos ⟨ List.isPrefixOf_iff_prefix.mpr hpre', hp⟩]
        have hR : replF p rep (c :: l').length (c :: l')
            = rep ++ replF p rep l'.length (l'.drop (p.length - 1)) := by
          show replF p rep (l'.length + 1) (c :: l') = _
          simp only [replF]
          rw [if_pos ⟨ List.isPrefixOf_iff_prefix.mpr hpre, hp⟩]
        rw [hL, hR, List.append_assoc]
        congr 1
        rw [List.drop_append_of_le_length (by omega : p.length - 1 ≤ l'.length)]
        have hbound : (l'.drop (p.length - 1)).length + b.length ≤ fuel := by
          have := List.length_drop (p.length - 1) l'
          simp at hlen
          omega
        rw [ih (l'.drop (p.length - 1)) b
          (noDangling_drop l' (p.length - 1) (noDangling_tail hnd)) hbound]
        congr 1
        exact replF_fuel_congr p rep (l'.drop (p.length - 1)).length l'.length
          (l'.drop (p.length - 1)) le_rfl (by simp [List.length_drop])
      · have hpre' : ¬ p <+: c :: (l' ++ b) := by
          rw [← hstep]
          exact fun hcontra => hpre (prefix_split hnd hcontra)
        have hL : replF p rep (fuel + 1) ((c :: l') ++ b)
            = c :: replF p rep fuel (l' ++ b) := by
          rw [hstep]
          simp only [replF]
          rw [if_neg (fun hand => hpre' ( List.isPrefixOf_iff_prefix.mp hand.1))]
        have hR : replF p rep (c :: l').length (c :: l')
            = c :: replF p rep l'.length l' := by
          show replF p rep (l'.length + 1) (c :: l') = _
          simp only [replF]
          rw [if_neg (fun hand => hpre ( List.isPrefixOf_iff_prefix.mp hand.1))]
        rw [hL, hR]
        have hbound : l'.length + b.length ≤ fuel := by simp at hlen; omega
        rw [ih l' b (noDangling_tail hnd) hbound]
        rfl

theorem replF_skip (p rep : List Char) (hd : Char) (hh : p.head? = some hd) :
    ∀ fuel (a b : List Char), hd ∉ a → a.length + b.length ≤ fuel →
      replF p rep fuel (a ++ b) = a ++ replF p rep b.length b := by
  intro fuel
  induction fuel with
  | zero =>
    intro a b _ hlen
    have ha : a = [] := List.eq_nil_of_length_eq_zero (by omega)
    have hb : b = [] := List.eq_nil_of_length_eq_zero (by omega)
    subst ha; subst hb
    simp [replF_nil]
  | succ fuel ih =>
    intro a b ha hlen
    cases a with
    | nil =>
      simp only [List.nil_append]
      exact replF_fuel_congr p rep (fuel + 1) b.length b (by simpa using hlen) le_rfl
    | cons c a' =>
      obtain ⟨p', hp'⟩ : ∃ p', p = hd :: p' := by
        cases p with
        | nil => simp at hh
        | cons x xs =>
          simp only [List.head?_cons, Option.some.injEq] at hh
          exact ⟨xs, by rw [hh]⟩
      have hnot : ¬ p <+: c :: (a' ++ b) := by
        rw [hp']
        intro hcontra
        rw [List.cons_prefix_cons] at hcontra
        exact ha (hcontra.1 ▸ List.mem_cons_self c a')
      have hL : replF p rep (fuel + 1) ((c :: a') ++ b)
          = c :: replF p rep fuel (a' ++ b) := by
        show replF p rep (fuel + 1) (c :: (a' ++ b)) = _
        simp only [replF]
        rw [if_neg (fun hand => hnot ( List.isPrefixOf_iff_prefix.mp hand.1))]
      rw [hL]
      have hbound : a'.length + b.length ≤ fuel := by simp at hlen; omega
      rw [ih a' b (fun hm => ha (List.mem_cons_of_mem c hm)) hbound]
      rfl

theorem fieldToken_data (f : String) :
    (fieldToken f).data = '\x7b' :: (f.data ++ ['\x7d']) := by
  show ("\x7b" ++ f ++ "\x7d").data = _
  rw [String.data_append, String.data_append]
  rfl

theorem fieldMarker_data (f : String) :
    (fieldMarker f).data = '<' :: (f.data ++ ['>']) := by
  show ("<" ++ f ++ ">").data = _
  rw [String.data_append, String.data_append]
  rfl

theorem replF_flat_pass (p : List Char) (f : String) (hp : p ≠ [])
    (hh : p.head? = some '\x7b')
    (v : String → List Char) (hv : ∀ g, '\x7b' ∉ v g) :
    ∀ (ps : List Piece) fuel, passOk p ps = true → (flat v ps).length ≤ fuel →
      replF p (v f) fuel (flat v ps) = flat v (passPieces p f ps) := by
  intro ps
  induction ps with
  | nil =>
    intro fuel _ _
    show replF p (v f) fuel [] = flat v []
    rw [replF_nil]
    rfl
  | cons P ps' ih =>
    intro fuel hok hfuel
    cases P with
    | lit l =>
      simp only [passOk, Bool.and_eq_true] at hok
      have hflat : flat v (Piece.lit l :: ps') = l ++ flat v ps' := rfl
      rw [hflat] at hfuel ⊢
      have hlen : l.length + (flat v ps').length ≤ fuel := by
        simpa [List.length_append] using hfuel
      rw [replF_append p (v f) hp fuel l (flat v ps') hok.1 hlen]
      rw [← flat_litRepl p f v l.length l]
      rw [ih (flat v ps').length hok.2 le_rfl]
      rw [← flat_append]
      rfl
    | val g =>
      simp only [passOk] at hok
      have hflat : flat v (Piece.val g :: ps') = v g ++ flat v ps' := rfl
      rw [hflat] at hfuel ⊢
      have hlen : (v g).length + (flat v ps').length ≤ fuel := by
        simpa [List.length_append] using hfuel
      rw [replF_skip p (v f) '\x7b' hh fuel (v g) (flat v ps') (hv g) hlen]
      rw [ih (flat v ps').length hok le_rfl]
      rfl

theorem generateOutput_pieces (v : String → List Char) (vs : List (String × String)) :
    ∀ (fields : List String) (ps : List Piece),
      (∀ f ∈ fields, v f = (jsOr (lookupVal vs f) (fieldMarker f)).data) →
      (∀ g, '$' ∉ v g) → (∀ g, '\x7b' ∉ v g) →
      passesOk fields ps = true →
      fields.foldl
          (fun r fld => jsReplaceAll r (fieldToken fld) (jsOr (lookupVal vs fld) (fieldMarker fld)))
          ⟨flat v ps⟩
        = ⟨flat v (fields.foldl (fun qs fld => passPieces (fieldToken fld).data fld qs) ps)⟩ := by
  intro fields
  induction fields with
  | nil => intro ps _ _ _ _; rfl
  | cons f fs ih =>
    intro ps hrep hv1 hv2 hok
    simp only [passesOk, Bool.and_eq_true] at hok
    simp only [List.foldl_cons]
    have hstep : jsReplaceAll ⟨flat v ps⟩ (fieldToken f) (jsOr (lookupVal vs f) (fieldMarker f))
        = (⟨flat v (passPieces (fieldToken f).data f ps)⟩ : String) := by
      show (⟨jsReplAux (fieldToken f).data (jsOr (lookupVal vs f) (fieldMarker f)).data
          (flat v ps) (flat v ps).length 0 (flat v ps)⟩ : String) = _
      rw [← hrep f (List.mem_cons_self f fs)]
      rw [jsReplAux_no_dollar (fieldToken f).data (v f) (flat v ps) (hv1 f)]
      rw [replF_flat_pass (fieldToken f).data f
        (by rw [fieldToken_data]; exact List.cons_ne_nil _ _)
        (by rw [fieldToken_data]; rfl) v hv2 ps (flat v ps).length hok.1 le_rfl]
    rw [hstep]
    exact ih (passPieces (fieldToken f).data f ps) (fun g hg => hrep g (List.mem_cons_of_mem f hg))
      hv1 hv2 hok.2

theorem occursB_append_no (m : List Char) :
    ∀ (l b : List Char), noDangling m l = true → occursB m l = false → occursB m b = false →
      occursB m (l ++ b) = false := by
  intro l
  induction l with
  | nil => intro b _ _ hb; simpa using hb
  | cons c l' ih =>
    intro b hnd hl hb
    simp only [occursB, Bool.or_eq_false_iff] at hl
    have hstep : (c :: l') ++ b = c :: (l' ++ b) := rfl
    rw [hstep]
    simp only [occursB, Bool.or_eq_false_iff]
    constructor
    · by_contra hcontra
      simp only [Bool.not_eq_false] at hcontra
      have hpre : m <+: (c :: l') ++ b := by
        rw [hstep]; exact List.isPrefixOf_iff_prefix.mp hcontra
      have : m <+: c :: l' := prefix_split hnd hpre
      rw [ List.isPrefixOf_iff_prefix.mpr this] at hl
      exact absurd hl.1 (by simp)
    · exact ih b (noDangling_tail hnd) hl.2 hb

theorem occursB_skip_no (m : List Char) (hd : Char) (hh : m.head? = some hd) :
    ∀ (a b : List Char), hd ∉ a → occursB m b = false → occursB m (a ++ b) = false := by
  intro a
  induction a with
  | nil => intro b _ hb; simpa using hb
  | cons c a' ih =>
    intro b ha hb
    have hstep : (c :: a') ++ b = c :: (a' ++ b) := rfl
    rw [hstep]
    simp only [occursB, Bool.or_eq_false_iff]
    constructor
    · by_contra hcontra
      simp only [Bool.not_eq_false] at hcontra
      have hpre : m <+: c :: (a' ++ b) :=  List.isPrefixOf_iff_prefix.mp hcontra
      obtain ⟨m', hm'⟩ : ∃ m', m = hd :: m' := by
        cases m with
        | nil => simp at hh
        | cons x xs =>
          simp only [List.head?_cons, Option.some.injEq] at hh
          exact ⟨xs, by rw [hh]⟩
      rw [hm', List.cons_prefix_cons] at hpre
      exact ha (hpre.1 ▸ List.mem_cons_self c a')
    · exact ih b (fun hmem => ha (List.mem_cons_of_mem c hmem)) hb

theorem occursB_flat_no (m : List Char) (hm : m.head? = some '<')
    (v : String → List Char) (hv : ∀ g, '<' ∉ v g) :
    ∀ ps, markerFree m ps = true → occursB m (flat v ps) = false := by
  have hm0 : m ≠ [] := by cases m <;> simp_all
  intro ps
  induction ps with
  | nil => intro _; simpa [flat, occursB] using hm0
  | cons P ps' ih =>
    intro hmf
    cases P with
    | lit l =>
      simp only [markerFree, Bool.and_eq_true, Bool.not_eq_true'] at hmf
      show occursB m (l ++ flat v ps') = false
      exact occursB_append_no m l (flat v ps') hmf.1.2 hmf.1.1 (ih hmf.2)
    | val g =>
      simp only [markerFree] at hmf
      show occursB m (v g ++ flat v ps') = false
      exact occursB_skip_no m '<' hm (v g) (flat v ps') (hv g) (ih hmf)

theorem c8_master (t : Template)
    (hok : passesOk t.fields [Piece.lit t.template.data] = true)
    (hmk : ∀ f ∈ t.fields, markerFree (fieldMarker f).data (renderPieces t) = true)
    (vs : List (String × String))
    (h1 : ∀ f ∈ t.fields, goodVal vs f = true)
    (f : String) (hf : f ∈ t.fields) :
    containsStr (generateOutput t vs) (fieldMarker f) = false := by
  set v : String → List Char :=
    fun g => if g ∈ t.fields then (jsOr (lookupVal vs g) (fieldMarker g)).data else [] with hvdef
  have hval : ∀ g ∈ t.fields,
      ∃ val : String, lookupVal vs g = some val ∧ val ≠ "" ∧ safeVal val = true := by
    intro g hg
    have hgv := h1 g hg
    cases hlk : lookupVal vs g with
    | none => rw [goodVal, hlk] at hgv; simp at hgv
    | some val =>
      rw [goodVal, hlk, Bool.and_eq_true] at hgv
      exact ⟨val, rfl, by simpa using hgv.1, hgv.2⟩
  have hsafe : ∀ g c, c ∈ v g → safeChar c = true := by
    intro g c hc
    by_cases hg : g ∈ t.fields
    · obtain ⟨val, hlk, hne, hsv⟩ := hval g hg
      have hveq : v g = val.data := by
        rw [hvdef]
        simp only [if_pos hg, hlk, jsOr, if_neg hne]
      rw [hveq] at hc
      exact List.all_eq_true.mp hsv c hc
    · rw [hvdef] at hc
      simp only [if_neg hg] at hc
      simp at hc
  have hexcl : ∀ ch : Char, safeChar ch = false → ∀ g, ch ∉ v g := by
    intro ch hch g hmem
    rw [hsafe g ch hmem] at hch
    exact Bool.noConfusion hch
  have hvd : ∀ g, '$' ∉ v g := hexcl '$' (by decide)
  have hvb : ∀ g, '\x7b' ∉ v g := hexcl '\x7b' (by decide)
  have hvl : ∀ g, '<' ∉ v g := hexcl '<' (by decide)
  have hrep : ∀ g ∈ t.fields, v g = (jsOr (lookupVal vs g) (fieldMarker g)).data := by
    intro g hg
    rw [hvdef]
    simp only [if_pos hg]
  have hstart : (⟨flat v [Piece.lit t.template.data]⟩ : String) = t.template := by
    show (⟨t.template.data ++ ([] : List Char)⟩ : String) = t.template
    rw [List.append_nil]
  have hgen : generateOutput t vs = (⟨flat v (renderPieces t)⟩ : String) := by
    unfold generateOutput
    rw [← hstart]
    rw [generateOutput_pieces v vs t.fields [Piece.lit t.template.data] hrep hvd hvb hok]
    rfl
  show occursB (fieldMarker f).data (generateOutput t vs).data = false
  rw [hgen]
  exact occursB_flat_no (fieldMarker f).data (by rw [fieldMarker_data]; rfl) v hvl
    (renderPieces t) (hmk f hf)

/-- C8 amended: for every registry template and every value mapping
that supplies, for each declared field, a non-empty value avoiding the
special characters (braces, angle brackets, dollar — characters with
which a value can itself spell or complete a marker or placeholder or
trigger `$`-expansion), the render contains no occurrence of the
literal `<field>` marker of any declared field. -/
theorem c8_amended_no_marker :
    ∀ kt ∈ TEMPLATES, ∀ vs : List (String × String),
      (∀ f ∈ kt.2.fields, goodVal vs f = true) →
      ∀ f ∈ kt.2.fields, containsStr (generateOutput kt.2 vs) (fieldMarker f) = false := by
  intro kt hkt vs h1 f hf
  refine c8_master kt.2 ?_ ?_ vs h1 f hf
  · fin_cases hkt <;> decide
  · fin_cases hkt <;> decide

theorem c8_amended_no_marker_witness :
    containsStr
      (generateOutput suffix_lookup [("const_name", "DECADES"), ("suffixes", "a, b, c")])
      (fieldMarker "suffixes") = false :=
  c8_amended_no_marker ("suffix_lookup", suffix_lookup) (by decide)
    [("const_name", "DECADES"), ("suffixes", "a, b, c")] (by decide) "suffixes" (by decide)
